import Mathlib

set_option autoImplicit false
set_option maxHeartbeats 1000000

/-!
Shallow embedding of the cli-app command-line argument tokenizer, schema
builder, resolver and dispatcher (translated from `src/Application.ts`,
`src/funcs.ts` and `src/classes.ts`).

JavaScript objects used as string-keyed records are modelled as
insertion-ordered association lists `List (String × α)`; the JS values
`string | boolean | null | undefined` stored in a named-argument record are
modelled by `JSVal`.  `process`/filesystem interaction (source-directory
computation, printing of warnings, exit codes) is outside the model: the
dispatcher is modelled up to the point where the selected subcommand's
handler is invoked with its fully resolved options, and thrown errors are
modelled by `Except` with an `AppFailure` describing which kind of JS error
was thrown (`ApplicationError` from `fail`, plain `Error` from
`invalidConfig` or `crash`).
-/

/-- JavaScript runtime values appearing in a named-argument record: a string,
a boolean, `null`, or an explicitly stored `undefined`.  A key that is
entirely absent from the record is modelled by `recGet?` returning `none`. -/
inductive JSVal where
  | str (s : String)
  | bool (b : Bool)
  | null
  | undef
deriving DecidableEq, Repr

/-- JS object property read `r[k]`; `none` means the key is absent. -/
def recGet? {α : Type} (r : List (String × α)) (k : String) : Option α :=
  (r.find? (fun p => p.1 = k)).map (fun p => p.2)

/-- JS property assignment `r[k] = v`: updates in place when the key exists
(keeping its position) and appends otherwise (JS insertion order).  Records
are built from `[]` with `recSet`/`recDelete` only, so keys are distinct. -/
def recSet {α : Type} : List (String × α) → String → α → List (String × α)
  | [], k, v => [(k, v)]
  | p :: r, k, v => if p.1 = k then (k, v) :: r else p :: recSet r k v

/-- JS `delete r[k]`. -/
def recDelete {α : Type} (r : List (String × α)) (k : String) : List (String × α) :=
  r.filter (fun p => p.1 ≠ k)

/-- JS `k in r`. -/
def recHasKey {α : Type} (r : List (String × α)) (k : String) : Bool :=
  r.any (fun p => p.1 = k)

/-- Does `pat` occur at the start of the character list? -/
def leadsWith : List Char → List Char → Bool
  | [], _ => true
  | _ :: _, [] => false
  | p :: ps, c :: cs => p = c && leadsWith ps cs

/-- Does `pat` occur anywhere in the character list? -/
def strContainsCore (pat : List Char) : List Char → Bool
  | [] => leadsWith pat []
  | c :: cs => leadsWith pat (c :: cs) || strContainsCore pat cs

/-- Substring test, used to check the contents of error messages:
`strContains s pat = true` iff `pat` occurs somewhere in `s`. -/
def strContains (s pat : String) : Bool :=
  strContainsCore pat.data s.data

/-- JS `token.startsWith("-")`: the first character is a hyphen. -/
def strStartsWithDash (s : String) : Bool :=
  match s.data with
  | '-' :: _ => true
  | _ => false

/-! ## Tokenizer (`Application.parseArgs`, Application.ts:947-1013) -/

/-- The character class `\w` of the JS regex `/^-(\w+)/`:
ASCII letters, digits and underscore. -/
def isWordChar (c : Char) : Bool := c.isAlphanum || c = '_'

/-- Splits a character list at the first `'='`; `none` when there is no `'='`.
Implements the lazy group of `/^--([\s\S]+?)=([\s\S]*?)$/`: the name extends
exactly to the first `=` sign. -/
def splitAtFirstEq : List Char → Option (List Char × List Char)
  | [] => none
  | c :: cs =>
    if c = '=' then some ([], cs)
    else (splitAtFirstEq cs).map (fun p => (c :: p.1, p.2))

/-- Core of `/^--([\s\S]+?)=([\s\S]*?)$/` on the character list of a token:
two hyphens, a non-empty lazily matched name, `=`, then the value up to the
end of the token. -/
def mNEVCore : List Char → Option (List Char × List Char)
  | '-' :: '-' :: c0 :: rest => (splitAtFirstEq rest).map (fun p => (c0 :: p.1, p.2))
  | _ => none

/-- Regex `__nameEqualsValue = /^--([\s\S]+?)=([\s\S]*?)$/`. -/
def matchNameEqualsValue (t : String) : Option (String × String) :=
  (mNEVCore t.data).map (fun p => (String.mk p.1, String.mk p.2))

/-- Core of `/^--([\s\S]+)/`: two hyphens then at least one character;
the capture is everything after the hyphens. -/
def matchNameCore : List Char → Option (List Char)
  | '-' :: '-' :: c :: rest => some (c :: rest)
  | _ => none

/-- Regex `__name = /^--([\s\S]+)/`. -/
def matchName (t : String) : Option String :=
  (matchNameCore t.data).map String.mk

/-- Core of `/^-(\w+)/`: one hyphen then the maximal non-empty run of word
characters.  Anything after that run (for example `=value`) is not captured
and is simply dropped by the tokenizer. -/
def matchShortCore : List Char → Option (List Char)
  | '-' :: rest =>
    let w := rest.takeWhile isWordChar
    if w = [] then none else some w
  | _ => none

/-- Regex `_name = /^-(\w+)/`. -/
def matchShort (t : String) : Option String :=
  (matchShortCore t.data).map String.mk

/-- The decision `parseArgs` makes for one token, in the source's priority
order: exact `--` separator, `--name=value`, `--name`, `-xyz` short form,
otherwise positional. -/
inductive TokenClass where
  | separator
  | nameEq (name value : String)
  | long (name : String)
  | short (chars : String)
  | positional
deriving DecidableEq, Repr

/-- Classifies one token following the branch order of the tokenizer loop. -/
def classifyToken (arg : String) : TokenClass :=
  if arg = "--" then .separator
  else
    match matchNameEqualsValue arg with
    | some (n, v) => .nameEq n v
    | none =>
      match matchName arg with
      | some n => .long n
      | none =>
        match matchShort arg with
        | some s => .short s
        | none => .positional

/-- Result record of `parseArgs`. -/
structure ParseResult where
  namedArgs : List (String × JSVal)
  positionalArgs : List String
  firstPositionalArg : Option String
deriving DecidableEq, Repr

/-- Lookahead `args[0]?.startsWith("-")` — `undefined` (hence falsy) when no token
remains. -/
def nextStartsWithDash : List String → Bool
  | [] => false
  | a :: _ => strStartsWithDash a

/-- The trailing `for(const arg of shortArgs) namedArgs[arg] = null;` of the
short-form branch: every character before the last is assigned `null`. -/
def setAllNull (cs : List Char) (named : List (String × JSVal)) : List (String × JSVal) :=
  cs.foldl (fun n c => recSet n (String.mk [c]) JSVal.null) named

/-- The `for(let i = 1;; i++)` loop of `parseArgs`: one decision per token,
with lookahead of one token.  `vl` is `valuelessOptions`; the remaining
parameters are the loop state (`args`, `i`, `namedArgs`, `positionalArgs`,
`firstPositionalArg`). -/
def parseArgsLoop (vl : List String) :
    List String → Nat → List (String × JSVal) → List String → Option String → ParseResult
  | [], _, named, pos, fpa => ⟨named, pos, fpa⟩
  | [arg], i, named, pos, fpa =>
    -- last token: the lookahead `args[0]` is `undefined`, and the loop's next
    -- iteration returns the state unchanged, so the result is written directly
    match classifyToken arg with
    | .separator => ⟨named, pos ++ [arg], fpa⟩
    | .nameEq name value => ⟨recSet named name (.str value), pos, fpa⟩
    | .long argName =>
      -- both branches store `null`: lookahead is falsy and `args.shift() ?? null` is `null`
      ⟨recSet named argName .null, pos, fpa⟩
    | .short argName =>
      match argName.data.getLast? with
      | none => ⟨named, pos, fpa⟩
      | some lastC => ⟨setAllNull argName.data.dropLast (recSet named (String.mk [lastC]) .null), pos, fpa⟩
    | .positional => ⟨named, pos ++ [arg], if i = 1 then some arg else fpa⟩
  | arg :: next :: rest, i, named, pos, fpa =>
    match classifyToken arg with
    | .separator => ⟨named, pos ++ arg :: next :: rest, fpa⟩
    | .nameEq name value => parseArgsLoop vl (next :: rest) (i+1) (recSet named name (.str value)) pos fpa
    | .long argName =>
      if strStartsWithDash next || vl.contains argName then
        parseArgsLoop vl (next :: rest) (i+1) (recSet named argName .null) pos fpa
      else
        parseArgsLoop vl rest (i+1) (recSet named argName (.str next)) pos fpa
    | .short argName =>
      match argName.data.getLast? with
      | none => parseArgsLoop vl (next :: rest) (i+1) named pos fpa
      | some lastC =>
        if strStartsWithDash next || vl.contains (String.mk [lastC]) then
          parseArgsLoop vl (next :: rest) (i+1)
            (setAllNull argName.data.dropLast (recSet named (String.mk [lastC]) .null)) pos fpa
        else
          parseArgsLoop vl rest (i+1)
            (setAllNull argName.data.dropLast (recSet named (String.mk [lastC]) (.str next))) pos fpa
    | .positional =>
      parseArgsLoop vl (next :: rest) (i+1) named (pos ++ [arg]) (if i = 1 then some arg else fpa)

/-- Function `Application.parseArgs(providedArgs, valuelessOptions)`
(Application.ts:947-1013). -/
def parseArgs (providedArgs : List String) (valuelessOptions : List String) : ParseResult :=
  parseArgsLoop valuelessOptions providedArgs 1 [] [] none

/-! ## Error model (`funcs.ts`, `classes.ts`) -/

/-- The kinds of JS errors the library throws:
`applicationError` models `fail` throwing an `ApplicationError` (user-facing,
with exit code); `configError` models `invalidConfig` throwing a plain
`Error` with the `cli-app configuration error: ` prefix; `crash` models
`crash` throwing a plain `Error` (internal invariant violation). -/
inductive AppFailure where
  | applicationError (message : String) (exitCode : Nat)
  | configError (message : String)
  | crash (message : String)
deriving DecidableEq, Repr

deriving instance DecidableEq for Except

/-- Function `invalidConfig` (funcs.ts:14-16). -/
def invalidConfig (message : String) : AppFailure :=
  .configError ("cli-app configuration error: " ++ message)

/-! ## Schema model (`Subcommand` constructor, Application.ts:1089-1133) -/

/-- Type `NamedArgData`: the per-named-argument description produced by the arg
builder (`~`-prefixed fields in the source).  The constructor's normalization
fills `description` and merges command-level aliases. -/
structure NamedArgData where
  description : Option String
  optional : Bool
  default : Option String
  valueless : Bool
  aliases : List String
deriving DecidableEq, Repr

/-- Type `PositionalArgOptions` as passed by the user: `optional` is `none` when
the `optional` key is absent (`"optional" in a` is false), and `default` is
`none` when absent or `null`. -/
structure PositionalArgOptions where
  name : String
  description : Option String
  optional : Option Bool
  default : Option String
deriving DecidableEq, Repr

/-- A positional argument after constructor normalization:
`default: a.default ?? null` and the `optional` computation. -/
structure PositionalArgData where
  name : String
  description : Option String
  optional : Bool
  default : Option String
deriving DecidableEq, Repr

/-- Policy type `"error" | "warn" | "ignore"`. -/
inductive CheckPolicy where
  | error
  | warn
  | ignore
deriving DecidableEq, Repr

/-- Type `Required<ArgOptions>`: the fully-defaulted options record stored on a
`Subcommand`. -/
structure ArgOptionsNorm where
  namedArgs : List (String × NamedArgData)
  aliases : List (String × String)
  positionalArgs : List PositionalArgData
  positionalArgCountCheck : CheckPolicy
  positionalArgsText : String
  unexpectedNamedArgCheck : CheckPolicy
  allowHelpNamedArg : Bool
deriving DecidableEq, Repr

/-- The user-supplied `ArgOptions` record (all fields optional except the
argument maps, which default to empty). -/
structure RawArgOptions where
  namedArgs : List (String × NamedArgData)
  aliases : List (String × String)
  positionalArgs : List PositionalArgOptions
  positionalArgCountCheck : Option CheckPolicy
  positionalArgsText : Option String
  unexpectedNamedArgCheck : Option CheckPolicy
  allowHelpNamedArg : Option Bool
deriving DecidableEq, Repr

/-- A registered subcommand.  The handler itself is outside the model: the
resolver below returns the options record that would be passed to it. -/
structure Subcommand where
  name : String
  description : Option String
  argOptions : ArgOptionsNorm
  defaultCommand : Bool
deriving DecidableEq, Repr

/-- Normalization of one named argument (Application.ts:1098-1104): fill in
the description placeholder and concatenate the command-level alias entries
whose key equals this argument's name. -/
def normalizeNamedArg (cmdAliases : List (String × String)) (key : String)
    (v : NamedArgData) : NamedArgData :=
  { description := some (v.description.getD "No description provided")
    optional := v.optional
    default := v.default
    valueless := v.valueless
    aliases := v.aliases ++ (cmdAliases.filter (fun p => p.1 = key)).map (fun p => p.2) }

/-- The command's alias table (Application.ts:1105-1110):
`Object.fromEntries` over the command-level alias entries followed by each
named argument's own alias list; later entries win. -/
def buildAliasTable (cmdAliases : List (String × String))
    (namedArgs : List (String × NamedArgData)) : List (String × String) :=
  (cmdAliases ++ namedArgs.flatMap (fun p => p.2.aliases.map (fun al => (al, p.1)))).foldl
    (fun acc p => recSet acc p.1 p.2) []

/-- Normalization of one positional argument (Application.ts:1111-1118),
including the redundant `optional`+`default` configuration error.  A truthy
`default` (non-empty string) forces `optional: true`. -/
def normalizePositional (cmdName : String) (i : Nat) (a : PositionalArgOptions) :
    Except AppFailure PositionalArgData :=
  let truthy : Bool := match a.default with
    | some s => s ≠ ""
    | none => false
  if truthy then
    if a.optional.isSome then
      .error (invalidConfig ("in subcommand " ++ cmdName ++ ": positional argument " ++
        toString i ++
        " has a default value, therefore it is optional, but \"optional\" was specified again. Please delete the redundant property."))
    else
      .ok { name := a.name, description := a.description, optional := true, default := a.default }
  else
    .ok { name := a.name, description := a.description, optional := a.optional.getD false,
          default := a.default }

/-- The constructor's positional-argument validation loop
(Application.ts:1128-1132): once an optional argument has been seen, any
later non-optional argument is a configuration error. -/
def validatePositionals (cmdName : String) : Bool → List PositionalArgData → Except AppFailure Unit
  | _, [] => .ok ()
  | started, a :: rest =>
    if started && !a.optional then
      .error (invalidConfig ("in subcommand " ++ cmdName ++
        ": Required positional arguments, or ones with a default value, cannot follow optional ones."))
    else validatePositionals cmdName (started || a.optional) rest

/-- The `Subcommand` constructor (Application.ts:1089-1133): normalizes the
user-supplied `ArgOptions` into a `Required<ArgOptions>` and validates the
positional-argument list, throwing a configuration error on a malformed
schema.  Registration (`.args(...).impl(...)`) calls this synchronously. -/
def mkSubcommand (name : String) (description : Option String) (raw : RawArgOptions)
    (defaultCommand : Bool) : Except AppFailure Subcommand :=
  match (raw.positionalArgs.enum.mapM (fun p => normalizePositional name p.1 p.2)) with
  | .error e => .error e
  | .ok ps =>
    match validatePositionals name false ps with
    | .error e => .error e
    | .ok _ =>
      .ok { name := name
            description := description
            defaultCommand := defaultCommand
            argOptions :=
              { namedArgs := raw.namedArgs.map (fun p => (p.1, normalizeNamedArg raw.aliases p.1 p.2))
                aliases := buildAliasTable raw.aliases raw.namedArgs
                positionalArgs := ps
                positionalArgCountCheck := raw.positionalArgCountCheck.getD .ignore
                positionalArgsText := raw.positionalArgsText.getD ""
                unexpectedNamedArgCheck := raw.unexpectedNamedArgCheck.getD .error
                allowHelpNamedArg := raw.allowHelpNamedArg.getD true } }

/-! ## Application registry (`Application` class) -/

/-- The application registry: name, description, registered subcommands,
subcommand aliases and the default subcommand.  (`sourceDirectory` and
`currentRunOptions` are I/O plumbing, outside the model; the dispatcher model
below corresponds to a run where `Application.run` has set them up.) -/
structure Application where
  name : String
  description : String
  commands : List (String × Subcommand)
  aliases : List (String × String)
  defaultSubcommand : Subcommand
deriving DecidableEq, Repr

/-- Method `Application.getOnlyCommand` (Application.ts:848-855). -/
def getOnlyCommand (app : Application) : Option String :=
  match app.commands.filter (fun p => p.1 ≠ "help") with
  | [(n, _)] => if n = app.name then some n else none
  | _ => none

/-- An empty subcommand, used only as the `Option.getD` fallback when
extracting a known-successful `mkSubcommand` result. -/
def emptySubcommand : Subcommand :=
  { name := "", description := none, defaultCommand := false
    argOptions :=
      { namedArgs := [], aliases := [], positionalArgs := []
        positionalArgCountCheck := .ignore, positionalArgsText := ""
        unexpectedNamedArgCheck := .error, allowHelpNamedArg := true } }

/-- Extracts the subcommand from a registration known to succeed. -/
def exceptGetD {ε α : Type} (e : Except ε α) (d : α) : α :=
  match e with
  | .ok a => a
  | .error _ => d

/-- The built-in `help` subcommand registered by the `Application`
constructor (Application.ts:676-691). -/
def helpSubcommand : Subcommand :=
  exceptGetD
    (mkSubcommand "help"
      (some "Displays help information about all subcommands or a specific subcommand.")
      { namedArgs := []
        aliases := []
        positionalArgs := [{ name := "subcommand"
                             description := some "The subcommand to get information about."
                             optional := some true, default := none }]
        positionalArgCountCheck := some .ignore
        positionalArgsText := none
        unexpectedNamedArgCheck := some .warn
        allowHelpNamedArg := none } false)
    emptySubcommand

/-- The `Application` constructor (Application.ts:662-694): starts with the
built-in `help` command, which is also the initial default subcommand. -/
def mkApplication (name description : String) : Application :=
  { name := name, description := description
    commands := [("help", helpSubcommand)]
    aliases := []
    defaultSubcommand := helpSubcommand }

/-- Registration of a built subcommand under a name
(`CommandBuilder.args(...).impl(...)`, Application.ts:733-744), for a name
that is not already registered. -/
def addCommand (app : Application) (cmdName : String) (sc : Subcommand) : Application :=
  { app with commands := recSet app.commands cmdName sc }

/-! ## Resolver (`Subcommand.run`, Application.ts:1135-1219) -/

/-- The options record passed to a subcommand's handler
(`ComputeOptions`): `positionalArgs` entries are `none` for `undefined`
placeholders filled in for omitted optional positional arguments. -/
structure HandlerOpts where
  commandName : String
  positionalArgs : List (Option String)
  namedArgs : List (String × JSVal)
  unparsedArgs : List String
  nodeArgs : String × String
deriving DecidableEq, Repr

/-- The `usageInstructionsMessage` computed at the top of `Subcommand.run`
(Application.ts:1139-1141). -/
def usageMessage (app : Application) (sc : Subcommand) : String :=
  if (getOnlyCommand app).isSome then
    "for usage instructions, run " ++ app.name ++ " --help"
  else
    "for usage instructions, run " ++ app.name ++ " help " ++ sc.name

/-- The `valuelessOptions` list (Application.ts:1144-1146): for every
declared valueless named argument, its aliases followed by its canonical
name, flattened in declaration order. -/
def valuelessOf (sc : Subcommand) : List String :=
  (sc.argOptions.namedArgs.filter (fun p => p.2.valueless)).flatMap
    (fun p => p.2.aliases ++ [p.1])

/-- JS template-string rendering of a stored named-argument value (used in
the `Unexpected argument` message). -/
def jsDisplay : JSVal → String
  | .str s => s
  | .bool true => "true"
  | .bool false => "false"
  | .null => "null"
  | .undef => "undefined"

/-- The positional count check (Application.ts:1154-1159): with policy
`error`, more supplied positionals than declared is a user-facing failure;
`warn` prints and continues; `ignore` does nothing.  Excess values are never
truncated. -/
def positionalCountCheck (sc : Subcommand) (usage : String) (suppliedLen : Nat) :
    Except AppFailure Unit :=
  if suppliedLen > sc.argOptions.positionalArgs.length then
    if sc.argOptions.positionalArgCountCheck = .error then
      .error (.applicationError
        ("this subcommand expects at most " ++ toString sc.argOptions.positionalArgs.length ++
          " positional arguments, but " ++ toString suppliedLen ++ " arguments were passed" ++
          "\n" ++ usage) 1)
    else .ok ()
  else .ok ()

/-- The positional fill loop (Application.ts:1160-1170) over the enumerated
declared positional arguments: slots beyond the supplied values are filled
from the default, or with `undefined` when optional, and a missing required
slot is a user-facing failure.  (`cur.length` tracks the live
`positionalArgs.length` used in the error message.) -/
def positionalFill (requiredCount : Nat) (usage : String) :
    List (Nat × PositionalArgData) → List (Option String) → Except AppFailure (List (Option String))
  | [], cur => .ok cur
  | (i, a) :: rest, cur =>
    if i ≥ cur.length then
      match a.default with
      | some d => positionalFill requiredCount usage rest (cur ++ [some d])
      | none =>
        if a.optional then positionalFill requiredCount usage rest (cur ++ [none])
        else
          .error (.applicationError
            ("Missing required positional argument \"" ++ a.name ++ "\"\n" ++
              "this subcommand expects at least " ++ toString requiredCount ++
              " positional arguments, but " ++ toString cur.length ++ " arguments were passed\n" ++
              usage) 1)
    else positionalFill requiredCount usage rest cur

/-- Steps 2-3 of the resolver: count check then fill. -/
def positionalPhase (sc : Subcommand) (usage : String) (supplied : List String) :
    Except AppFailure (List (Option String)) :=
  match positionalCountCheck sc usage supplied.length with
  | .error e => .error e
  | .ok _ =>
    positionalFill ((sc.argOptions.positionalArgs.filter (fun o => !o.optional)).length)
      usage sc.argOptions.positionalArgs.enum (supplied.map some)

/-- Is a stored value loosely equal to `null` (`== null`): `null`,
`undefined`, or the key absent entirely? -/
def looseNull : Option JSVal → Bool
  | none => true
  | some .null => true
  | some .undef => true
  | some _ => false

/-- One step of the named alias folding loop (Application.ts:1173-1179) for
one snapshot entry `(name, value)`: when `name` is a declared alias,
`namedArgs[aliased] ??= value` (assign only when the current canonical value
is nullish) and then `delete namedArgs[name]`. -/
def aliasFoldStep (aliases : List (String × String)) (acc : List (String × JSVal))
    (entry : String × JSVal) : List (String × JSVal) :=
  match recGet? aliases entry.1 with
  | some canonical =>
    recDelete (if looseNull (recGet? acc canonical) then recSet acc canonical entry.2 else acc)
      entry.1
  | none => acc

/-- The named alias folding pass: `Object.entries(namedArgs).forEach(...)`
iterates over a snapshot of the entries while mutating the record. -/
def aliasFold (aliases : List (String × String)) (named : List (String × JSVal)) :
    List (String × JSVal) :=
  named.foldl (aliasFoldStep aliases) named

/-- The unexpected-named-argument check (Application.ts:1180-1190): skipped
entirely for policy `ignore`; otherwise any key that is neither a declared
canonical name, a declared alias, `help` nor `?` warns (prints, continues) or
fails per policy. -/
def unexpectedCheck (sc : Subcommand) (usage : String) (named : List (String × JSVal)) :
    Except AppFailure Unit :=
  if sc.argOptions.unexpectedNamedArgCheck = .ignore then .ok ()
  else
    named.foldlM (fun _ p =>
      if !(recHasKey sc.argOptions.namedArgs p.1 || recHasKey sc.argOptions.aliases p.1 ||
            p.1 = "help" || p.1 = "?") then
        if sc.argOptions.unexpectedNamedArgCheck = .error then
          .error (.applicationError
            ("Unexpected argument --" ++ p.1 ++
              (if p.2 = JSVal.null then "" else "=" ++ jsDisplay p.2) ++ "\n" ++ usage) 1)
        else .ok ()
      else .ok ()) ()

/-- The first block of the named default/require pass for one declared
argument (Application.ts:1192-1205): given the currently stored value `cur`
for `name` (`none` = key absent), returns the value stored after
default-filling, or the `required named argument` failure.  Writing
`undefined` stores the key explicitly (`some .undef`). -/
def fillNamedArg (name : String) (opt : NamedArgData) (cur : Option JSVal) (usage : String) :
    Except AppFailure (Option JSVal) :=
  if looseNull cur then
    match opt.default with
    | some d => .ok (some (.str d))
    | none =>
      if opt.optional then
        if !opt.valueless then
          .ok (some (if cur.isSome then JSVal.null else JSVal.undef))
        else .ok cur
      else
        .error (.applicationError
          ("No value specified for required named argument \"" ++ name ++ "\".\n" ++
            "To specify it, run the command with --" ++ name ++
            (if opt.valueless then "" else " <value>") ++ "\n" ++ usage) 1)
  else .ok cur

/-- One full iteration of the named pass for one declared argument
(Application.ts:1191-1210): default-filling followed by the valueless
boolean coercion, `namedArgs[name] = (namedArgs[name] === null)`. -/
def resolveNamedArgValue (name : String) (opt : NamedArgData) (cur : Option JSVal)
    (usage : String) : Except AppFailure (Option JSVal) :=
  match fillNamedArg name opt cur usage with
  | .error e => .error e
  | .ok v1 =>
    if opt.valueless then .ok (some (.bool (decide (v1 = some JSVal.null))))
    else .ok v1

/-- The named default/require/coerce pass, iterated over the declared schema
(Application.ts:1191-1210). -/
def namedPass (declared : List (String × NamedArgData)) (usage : String)
    (named : List (String × JSVal)) : Except AppFailure (List (String × JSVal)) :=
  match declared with
  | [] => .ok named
  | (name, opt) :: rest =>
    match resolveNamedArgValue name opt (recGet? named name) usage with
    | .error e => .error e
    | .ok none => namedPass rest usage named
    | .ok (some jv) => namedPass rest usage (recSet named name jv)

/-- Method `Subcommand.run` (Application.ts:1135-1219) up to the handler invocation:
re-tokenize with the schema's valueless set, run the positional count check
and fill, fold aliases, check unexpected named arguments, run the named pass,
and return the handler's options record.  (The `sourceDirectory` invariant
check is filesystem plumbing: the modelled dispatcher always sets it up.) -/
def subcommandRun (sc : Subcommand) (args : List String) (nodeArgs : String × String)
    (app : Application) : Except AppFailure HandlerOpts :=
  let usage := usageMessage app sc
  let parsed := parseArgs args (valuelessOf sc)
  match positionalPhase sc usage parsed.positionalArgs with
  | .error e => .error e
  | .ok posArgs =>
    let named1 := aliasFold sc.argOptions.aliases parsed.namedArgs
    match unexpectedCheck sc usage named1 with
    | .error e => .error e
    | .ok _ =>
      match namedPass sc.argOptions.namedArgs usage named1 with
      | .error e => .error e
      | .ok named2 =>
        .ok { commandName := sc.name
              positionalArgs := posArgs
              namedArgs := named2
              unparsedArgs := args
              nodeArgs := nodeArgs }

/-! ## Dispatcher (`Application.run`, Application.ts:1019-1074) -/

/-- Method `Application.run` up to and including the resolver call: validate the
argument-vector prefix, tokenize provisionally with no valueless knowledge,
select the subcommand (registered name, then alias, then default), apply the
`--help`/`-?` routing override, and run the resolver.  Returns the name of
the subcommand whose handler is invoked together with its resolved options.
Exit-code interpretation and the catch-and-print funnel are I/O, outside the
model: a `.error (.applicationError ...)` result is exactly a user-facing
failure that the funnel would print. -/
def applicationRunCore (app : Application) (rawArgs : List String) :
    Except AppFailure (String × HandlerOpts) :=
  if rawArgs.length < 2 then
    .error (.crash
      "Application.run() received invalid argv: process.argv should start with \"node path/to/filename.js\"")
  else
    let nodeArgs : String × String :=
      ((rawArgs.head?).getD "", ((rawArgs.drop 1).head?).getD "")
    let args := rawArgs.drop 2
    let parsed := parseArgs args []
    let fpaT : Option String :=
      match parsed.firstPositionalArg with
      | some s => if s = "" then none else some s
      | none => none
    let sel : Except AppFailure (List String × Subcommand) :=
      match fpaT with
      | some fpa =>
        match recGet? app.commands fpa with
        | some cmd => .ok (args.drop 1, cmd)
        | none =>
          match recGet? app.aliases fpa with
          | some target =>
            match recGet? app.commands target with
            | some cmd => .ok (args.drop 1, cmd)
            | none =>
              .error (invalidConfig ("Subcommand \"" ++ fpa ++ "\" was aliased to " ++ target ++
                ", which is not a valid subcommand"))
          | none => .ok (args, app.defaultSubcommand)
      | none => .ok (args, app.defaultSubcommand)
    match sel with
    | .error e => .error e
    | .ok (newArgs, command) =>
      if command.argOptions.allowHelpNamedArg &&
          (recHasKey parsed.namedArgs "help" || recHasKey parsed.namedArgs "?") then
        match recGet? app.commands "help" with
        | some h =>
          match subcommandRun h args nodeArgs app with
          | .error e => .error e
          | .ok opts => .ok (h.name, opts)
        | none => .error (.crash "commands[help] is missing")
      else
        match subcommandRun command newArgs nodeArgs app with
        | .error e => .error e
        | .ok opts => .ok (command.name, opts)

/-! ## Concrete scenarios used by the verification theorems -/

/-- C1 schema: named argument `required` (required, no default) and required
positional argument `target`. -/
def c1raw : RawArgOptions :=
  { namedArgs := [("required", { description := none, optional := false, default := none,
                                 valueless := false, aliases := [] })]
    aliases := []
    positionalArgs := [{ name := "target", description := none, optional := none, default := none }]
    positionalArgCountCheck := none, positionalArgsText := none
    unexpectedNamedArgCheck := none, allowHelpNamedArg := none }

def c1cmd : Subcommand :=
  exceptGetD (mkSubcommand "cmd1" (some "test command") c1raw false) emptySubcommand

def c1App : Application :=
  addCommand (mkApplication "test-app" "A test application.") "cmd1" c1cmd

/-- The failure message produced when `c1App` is run with only `["cmd1"]`. -/
def c1missingMsg : String :=
  "Missing required positional argument \"target\"\nthis subcommand expects at least 1 positional arguments, but 0 arguments were passed\nfor usage instructions, run test-app help cmd1"

/-- The resolved options when `c1App` is run with
`["cmd1", "--required", "x", "t1"]`. -/
def c1okOpts : HandlerOpts :=
  { commandName := "cmd1"
    positionalArgs := [some "t1"]
    namedArgs := [("required", JSVal.str "x")]
    unparsedArgs := ["--required", "x", "t1"]
    nodeArgs := ("node", "app.js") }

/-- C2 schema: one valueless, required named argument `flag`
(the result of `arg().valueless().required()`). -/
def c2raw : RawArgOptions :=
  { namedArgs := [("flag", { description := none, optional := false, default := none,
                             valueless := true, aliases := [] })]
    aliases := []
    positionalArgs := []
    positionalArgCountCheck := none, positionalArgsText := none
    unexpectedNamedArgCheck := none, allowHelpNamedArg := none }

def c2cmd : Subcommand :=
  exceptGetD (mkSubcommand "confirm" (some "test command") c2raw false) emptySubcommand

def c2App : Application :=
  addCommand (mkApplication "test-app" "A test application.") "confirm" c2cmd

/-- The failure message produced when `c2App` is run with
`["confirm", "--flag"]`. -/
def c2msg : String :=
  "No value specified for required named argument \"flag\".\nTo specify it, run the command with --flag\nfor usage instructions, run test-app help confirm"

/-- C7 schema: positional arguments `[{optional: true}, {required}]`. -/
def c7raw : RawArgOptions :=
  { namedArgs := [], aliases := []
    positionalArgs :=
      [{ name := "arg1", description := none, optional := some true, default := none },
       { name := "arg2", description := none, optional := none, default := none }]
    positionalArgCountCheck := none, positionalArgsText := none
    unexpectedNamedArgCheck := none, allowHelpNamedArg := none }

/-- The `invalidConfig` message of the constructor's positional validation. -/
def requiredAfterOptionalMsg (cmdName : String) : String :=
  "in subcommand " ++ cmdName ++
    ": Required positional arguments, or ones with a default value, cannot follow optional ones."

/-- C8 witness schema: one valueless, optional named argument `verbose`
(the result of `arg().valueless()`). -/
def c8raw : RawArgOptions :=
  { namedArgs := [("verbose", { description := none, optional := true, default := none,
                                valueless := true, aliases := [] })]
    aliases := []
    positionalArgs := []
    positionalArgCountCheck := none, positionalArgsText := none
    unexpectedNamedArgCheck := none, allowHelpNamedArg := none }

def c8cmd : Subcommand :=
  exceptGetD (mkSubcommand "vcmd" (some "test command") c8raw false) emptySubcommand

def c8App : Application :=
  addCommand (mkApplication "test-app" "A test application.") "vcmd" c8cmd

/-- The resolved options when `c8cmd` is run on `["--verbose=x"]`. -/
def c8opts : HandlerOpts :=
  { commandName := "vcmd"
    positionalArgs := []
    namedArgs := [("verbose", JSVal.bool false)]
    unparsedArgs := ["--verbose=x"]
    nodeArgs := ("node", "app.js") }

/-! ## Record lemmas -/

theorem recGet?_nil {α : Type} (k : String) : recGet? ([] : List (String × α)) k = none := rfl

theorem recGet?_cons {α : Type} (p : String × α) (l : List (String × α)) (k : String) :
    recGet? (p :: l) k = if p.1 = k then some p.2 else recGet? l k := by
  by_cases h : p.1 = k <;> simp [recGet?, List.find?, h]

theorem recGet?_recSet_self {α : Type} (r : List (String × α)) (k : String) (v : α) :
    recGet? (recSet r k v) k = some v := by
  induction r with
  | nil => simp [recSet, recGet?_cons]
  | cons p r ih =>
    by_cases h : p.1 = k
    · simp [recSet, h, recGet?_cons]
    · simp [recSet, h, recGet?_cons, ih]

theorem recGet?_recSet_ne {α : Type} (r : List (String × α)) (k k' : String) (v : α)
    (h : k' ≠ k) : recGet? (recSet r k v) k' = recGet? r k' := by
  have hks : ¬ k = k' := fun hh => h hh.symm
  induction r with
  | nil => simp [recSet, recGet?_cons, recGet?_nil, hks]
  | cons p r ih =>
    by_cases hp : p.1 = k
    · subst hp
      have hpk : ¬ p.1 = k' := hks
      simp [recSet, recGet?_cons, hpk]
    · simp [recSet, hp, recGet?_cons, ih]

theorem recGet?_recDelete_self {α : Type} (r : List (String × α)) (k : String) :
    recGet? (recDelete r k) k = none := by
  induction r with
  | nil => rfl
  | cons p r ih =>
    by_cases h : p.1 = k
    · simpa [recDelete, List.filter, h] using ih
    · simpa [recDelete, List.filter, h, recGet?_cons] using ih

theorem recGet?_recDelete_ne {α : Type} (r : List (String × α)) (k k' : String)
    (h : k' ≠ k) : recGet? (recDelete r k) k' = recGet? r k' := by
  have hks : ¬ k = k' := fun hh => h hh.symm
  induction r with
  | nil => rfl
  | cons p r ih =>
    by_cases hp : p.1 = k
    · have hdel : recGet? (recDelete (p :: r) k) k' = recGet? (recDelete r k) k' := by
        simp [recDelete, List.filter, hp]
      rw [hdel, ih, recGet?_cons, hp, if_neg hks]
    · have hkeep : recDelete (p :: r) k = p :: recDelete r k := by
        simp [recDelete, List.filter, hp]
      rw [hkeep, recGet?_cons, recGet?_cons]
      by_cases hk2 : p.1 = k' <;> simp [hk2, ih]

/-! ## Claim theorems -/

/-- C1, counterexample: with the C1 schema (required named argument
`required`, required positional argument `target`), running the application
with only `["cmd1"]` does fail with a user-facing `ApplicationError`, but its
message does not mention "required named argument": the missing required
positional argument is detected first (Application.ts:1160-1170 runs before
1191-1210), so the message names the positional argument instead. -/
theorem c1_counterexample :
    applicationRunCore c1App ["node", "app.js", "cmd1"] =
      .error (.applicationError c1missingMsg 1) ∧
    strContains c1missingMsg "required named argument" = false := by
  constructor
  · rfl
  · decide

/-- C1, amended: running with only `["cmd1"]` fails with a user-facing
error whose message mentions "required positional argument" (the resolver's
positional fill runs before the named-argument pass and fails on the missing
`target`), and running with `["cmd1", "--required", "x", "t1"]` invokes the
handler with `namedArgs.required === "x"` and `positionalArgs[0] === "t1"`. -/
theorem c1_amended :
    (applicationRunCore c1App ["node", "app.js", "cmd1"] =
        .error (.applicationError c1missingMsg 1) ∧
      strContains c1missingMsg "required positional argument" = true) ∧
    (applicationRunCore c1App ["node", "app.js", "cmd1", "--required", "x", "t1"] =
        .ok ("cmd1", c1okOpts) ∧
      recGet? c1okOpts.namedArgs "required" = some (JSVal.str "x") ∧
      c1okOpts.positionalArgs.head? = some (some "t1")) := by
  refine ⟨⟨rfl, by decide⟩, rfl, rfl, rfl⟩

/-- C2, code evaluated at the failing input: with a valueless, required
named argument `flag` (built by `arg().valueless().required()`), invoking the
command with the flag present (`["confirm", "--flag"]`) does not reach the
handler: the tokenizer stores `null` for the flag, the resolver's
`namedArgs[name] == null` check (Application.ts:1192) treats that as
"not specified", and with no default and `~optional: false` it raises the
"No value specified for required named argument" failure — contradicting the
documentation of `NamedArgBuilder.required` (Application.ts:581-588), which
promises the handler receives the literal `true`. -/
theorem c2_code_bug_eval :
    recGet? c2cmd.argOptions.namedArgs "flag" =
      some { description := some "No description provided", optional := false,
             default := none, valueless := true, aliases := [] } ∧
    applicationRunCore c2App ["node", "app.js", "confirm", "--flag"] =
      .error (.applicationError c2msg 1) ∧
    strContains c2msg "No value specified for required named argument" = true := by
  refine ⟨rfl, rfl, by decide⟩

/-- C3, counterexample: the alias folding uses `??=`, which treats a stored
`null` (flag present without a value) as unset.  With alias table
`{a ↦ n}` and raw assignments `{n: null, a: "v"}`, the existing canonical
assignment `n: null` is clobbered by the alias's value `"v"`, refuting the
claim that an existing canonical assignment is never clobbered. -/
theorem c3_counterexample :
    recGet? [("n", JSVal.null), ("a", JSVal.str "v")] "n" = some JSVal.null ∧
    recGet? [("a", "n")] "a" = some "n" ∧
    aliasFold [("a", "n")] [("n", JSVal.null), ("a", JSVal.str "v")] = [("n", JSVal.str "v")] ∧
    recGet? (aliasFold [("a", "n")] [("n", JSVal.null), ("a", JSVal.str "v")]) "n" ≠
      some JSVal.null := by
  refine ⟨rfl, rfl, rfl, by decide⟩

/-- C3, amended: for every raw named assignment `(name, v)` whose key is a
declared alias of `canonical`, the folding step deletes the alias key and
writes `v` under the canonical name exactly when the canonical name's current
value is nullish (absent, `null` or `undefined`) — `??=` semantics.  An
existing string assignment is not clobbered, but an existing `null`
assignment (flag present without a value) is overwritten. -/
theorem c3_amended (aliases : List (String × String)) (acc : List (String × JSVal))
    (name canonical : String) (v : JSVal)
    (hal : recGet? aliases name = some canonical) (hne : canonical ≠ name) :
    recGet? (aliasFoldStep aliases acc (name, v)) name = none ∧
    recGet? (aliasFoldStep aliases acc (name, v)) canonical =
      (if looseNull (recGet? acc canonical) then some v else recGet? acc canonical) := by
  have hstep : aliasFoldStep aliases acc (name, v) =
      recDelete (if looseNull (recGet? acc canonical) then recSet acc canonical v else acc)
        name := by
    simp only [aliasFoldStep, hal]
  rw [hstep]
  by_cases hn : looseNull (recGet? acc canonical)
  · rw [if_pos hn, if_pos hn]
    exact ⟨recGet?_recDelete_self _ _,
      by rw [recGet?_recDelete_ne _ _ _ hne, recGet?_recSet_self]⟩
  · rw [if_neg hn, if_neg hn]
    exact ⟨recGet?_recDelete_self _ _, recGet?_recDelete_ne _ _ _ hne⟩

/-- C3, witness for the amended theorem: a concrete instance with an
existing string assignment at the canonical name, which survives. -/
theorem c3_amended_witness :
    recGet? (aliasFoldStep [("a", "n")] [("n", JSVal.str "w")] ("a", JSVal.str "v")) "a" = none ∧
    recGet? (aliasFoldStep [("a", "n")] [("n", JSVal.str "w")] ("a", JSVal.str "v")) "n" =
      some (JSVal.str "w") := by
  have h := c3_amended [("a", "n")] [("n", JSVal.str "w")] "a" "n" (JSVal.str "v") rfl
    (by decide)
  refine ⟨h.1, ?_⟩
  rw [h.2]
  decide

/-- C5: a token exactly equal to `--` stops named-argument scanning
immediately: the token itself and every remaining token are appended
verbatim, in order, to the positional sequence, for any loop state.  In
particular, tokenizing `["pos", "-s", "baka", "--", "sus", "--amogus"]`
yields named `{s: "baka"}` and positional `["pos", "--", "sus", "--amogus"]`
— the separator itself is retained. -/
theorem c5_separator :
    (∀ (vl rest : List String) (i : Nat) (named : List (String × JSVal))
        (pos : List String) (fpa : Option String),
      parseArgsLoop vl ("--" :: rest) i named pos fpa = ⟨named, pos ++ "--" :: rest, fpa⟩) ∧
    parseArgs ["pos", "-s", "baka", "--", "sus", "--amogus"] [] =
      ⟨[("s", JSVal.str "baka")], ["pos", "--", "sus", "--amogus"], some "pos"⟩ := by
  refine ⟨fun vl rest i named pos fpa => ?_, by decide⟩
  cases rest with
  | nil => rfl
  | cons b rest => rfl

/-- C4: for every long-form token without an inline `=` value (a token the
tokenizer classifies as `long name`), the loop assigns `null` to `name`
without consuming the next token iff the next token starts with `-` or `name`
is in the valueless set; otherwise it consumes the next token as the value,
or assigns `null` when no token remains.  In particular, tokenizing
`["--sus", "--sussy", "baka", "--amogus", "amoma"]` with valueless set
`{"sussy"}` yields named `{sus: null, sussy: null, amogus: "amoma"}` and
positional `["baka"]`. -/
theorem c4_long_form :
    (∀ (vl : List String) (arg name : String) (rest : List String) (i : Nat)
        (named : List (String × JSVal)) (pos : List String) (fpa : Option String),
      classifyToken arg = .long name →
      parseArgsLoop vl (arg :: rest) i named pos fpa =
        if nextStartsWithDash rest || vl.contains name then
          parseArgsLoop vl rest (i+1) (recSet named name JSVal.null) pos fpa
        else
          match rest with
          | v :: rest' => parseArgsLoop vl rest' (i+1) (recSet named name (JSVal.str v)) pos fpa
          | [] => ⟨recSet named name JSVal.null, pos, fpa⟩) ∧
    parseArgs ["--sus", "--sussy", "baka", "--amogus", "amoma"] ["sussy"] =
      ⟨[("sus", JSVal.null), ("sussy", JSVal.null), ("amogus", JSVal.str "amoma")],
        ["baka"], none⟩ := by
  refine ⟨fun vl arg name rest i named pos fpa h => ?_, by decide⟩
  cases rest with
  | nil =>
    simp only [parseArgsLoop, h, nextStartsWithDash, Bool.false_or]
    by_cases hc : vl.contains name
    · rw [if_pos hc]
    · rw [if_neg (by simpa using hc)]
  | cons b rest =>
    simp only [parseArgsLoop, h, nextStartsWithDash]

/-- C4, witness: the long-form rule applied at the concrete token `--a`
followed by a value token. -/
theorem c4_long_form_witness :
    parseArgsLoop ["x"] ["--a", "v"] 1 [] [] none = ⟨[("a", JSVal.str "v")], [], none⟩ := by
  have h := c4_long_form.1 ["x"] "--a" "a" ["v"] 1 [] [] none (by decide)
  rw [h]
  decide

/-- C6: for every token the tokenizer classifies as short form `-xyz`, every
character before the last is assigned `null` unconditionally (after the last
character's assignment, so it wins on duplicates), and the last character
follows the same value/no-value lookahead rule as long form.  In particular,
tokenizing `["-nPNi", "eth0"]` with no valueless declarations yields exactly
`{n: null, P: null, N: null, i: "eth0"}` and no positionals. -/
theorem c6_short_form :
    (∀ (vl : List String) (arg s : String) (inits : List Char) (lastC : Char)
        (rest : List String) (i : Nat) (named : List (String × JSVal))
        (pos : List String) (fpa : Option String),
      classifyToken arg = .short s →
      s.data = inits ++ [lastC] →
      parseArgsLoop vl (arg :: rest) i named pos fpa =
        if nextStartsWithDash rest || vl.contains (String.mk [lastC]) then
          parseArgsLoop vl rest (i+1)
            (setAllNull inits (recSet named (String.mk [lastC]) JSVal.null)) pos fpa
        else
          match rest with
          | v :: rest' =>
            parseArgsLoop vl rest' (i+1)
              (setAllNull inits (recSet named (String.mk [lastC]) (JSVal.str v))) pos fpa
          | [] => ⟨setAllNull inits (recSet named (String.mk [lastC]) JSVal.null), pos, fpa⟩) ∧
    parseArgs ["-nPNi", "eth0"] [] =
      ⟨[("i", JSVal.str "eth0"), ("n", JSVal.null), ("P", JSVal.null), ("N", JSVal.null)],
        [], none⟩ := by
  refine ⟨fun vl arg s inits lastC rest i named pos fpa h hdata => ?_, by decide⟩
  cases rest with
  | nil =>
    simp only [parseArgsLoop, h, hdata, List.getLast?_concat, List.dropLast_concat,
      nextStartsWithDash, Bool.false_or]
    by_cases hc : vl.contains (String.mk [lastC])
    · rw [if_pos hc]
    · rw [if_neg (by simpa using hc)]
  | cons b rest =>
    simp only [parseArgsLoop, h, hdata, List.getLast?_concat, List.dropLast_concat,
      nextStartsWithDash]

/-- C6, witness: the short-form rule applied at the concrete token `-ab`
followed by a value token: `a` is assigned `null`, `b` consumes the value. -/
theorem c6_short_form_witness :
    parseArgsLoop [] ["-ab", "v"] 1 [] [] none =
      ⟨[("b", JSVal.str "v"), ("a", JSVal.null)], [], none⟩ := by
  have h := c6_short_form.1 [] "-ab" "ab" ['a'] 'b' ["v"] 1 [] [] none (by decide) (by decide)
  rw [h]
  decide

/-! ## Lemmas about the regex cores, for C10 -/

theorem takeWhile_append_all (p : Char → Bool) (l m : List Char)
    (h : ∀ c ∈ l, p c = true) :
    (l ++ m).takeWhile p = l ++ m.takeWhile p := by
  induction l with
  | nil => simp
  | cons c l ih =>
    have hc : p c = true := h c (by simp)
    simp only [List.cons_append, List.takeWhile_cons, hc]
    rw [ih (fun c hc => h c (by simp [hc]))]
    simp

theorem mNEVCore_not_dash (c0 : Char) (l : List Char) (h : c0 ≠ '-') :
    mNEVCore ('-' :: c0 :: l) = none := by
  unfold mNEVCore
  split
  · next c0' rest heq =>
    rw [List.cons.injEq, List.cons.injEq] at heq
    exact absurd heq.2.1 h
  · rfl

theorem matchNameCore_not_dash (c0 : Char) (l : List Char) (h : c0 ≠ '-') :
    matchNameCore ('-' :: c0 :: l) = none := by
  unfold matchNameCore
  split
  · next c rest heq =>
    rw [List.cons.injEq, List.cons.injEq] at heq
    exact absurd heq.2.1 h
  · rfl

/-- A token whose character data is a hyphen followed by a non-hyphen word
character is classified as short form, capturing the maximal word run. -/
theorem classify_data_short (tok : String) (c0 : Char) (l : List Char)
    (hdata : tok.data = '-' :: c0 :: l) (hc0 : c0 ≠ '-')
    (hne : (c0 :: l).takeWhile isWordChar ≠ []) :
    classifyToken tok = .short (String.mk ((c0 :: l).takeWhile isWordChar)) := by
  have hsep : tok ≠ "--" := by
    intro he
    rw [he] at hdata
    rw [show ("--" : String).data = ['-', '-'] from rfl, List.cons.injEq, List.cons.injEq]
      at hdata
    exact hc0 hdata.2.1.symm
  unfold classifyToken matchNameEqualsValue matchName matchShort
  rw [if_neg hsep, hdata, mNEVCore_not_dash c0 l hc0, matchNameCore_not_dash c0 l hc0]
  rw [show matchShortCore ('-' :: c0 :: l) = some ((c0 :: l).takeWhile isWordChar) by
    simp only [matchShortCore, if_neg hne]]
  rfl

/-- C10: any token of the form one hyphen, one or more word characters, then
`=` and further text tokenizes exactly like the compound short form of the
word characters alone: the `=` and everything after it are silently
discarded (so they appear in neither the named values nor the positional
sequence), and the last word character still follows the normal value
lookahead rule on the following token.  In particular, `["-ab=c", "v"]`
yields named `{b: "v", a: null}` and no positionals. -/
theorem c10_short_discard :
    (∀ (w t : String) (vl rest : List String) (i : Nat) (named : List (String × JSVal))
        (pos : List String) (fpa : Option String),
      w.data ≠ [] → (∀ c ∈ w.data, isWordChar c = true) →
      parseArgsLoop vl (("-" ++ w ++ "=" ++ t) :: rest) i named pos fpa =
        parseArgsLoop vl (("-" ++ w) :: rest) i named pos fpa) ∧
    parseArgs ["-ab=c", "v"] [] =
      ⟨[("b", JSVal.str "v"), ("a", JSVal.null)], [], none⟩ := by
  refine ⟨fun w t vl rest i named pos fpa hw hword => ?_, by decide⟩
  obtain ⟨c0, cs, hcs⟩ : ∃ c0 cs, w.data = c0 :: cs := by
    cases hd : w.data with
    | nil => exact absurd hd hw
    | cons a b => exact ⟨a, b, rfl⟩
  have hc0w : isWordChar c0 = true := hword c0 (by rw [hcs]; simp)
  have hc0 : c0 ≠ '-' := by
    intro he
    rw [he] at hc0w
    exact absurd hc0w (by decide)
  have hdata1 : ("-" ++ w ++ "=" ++ t).data = '-' :: c0 :: (cs ++ '=' :: t.data) := by
    rw [String.data_append, String.data_append, String.data_append, hcs]
    simp [show ("-" : String).data = ['-'] from rfl, show ("=" : String).data = ['='] from rfl]
  have hdata2 : ("-" ++ w).data = '-' :: c0 :: cs := by
    rw [String.data_append, hcs]
    simp [show ("-" : String).data = ['-'] from rfl]
  have htw2 : (c0 :: cs).takeWhile isWordChar = c0 :: cs := by
    have := takeWhile_append_all isWordChar (c0 :: cs) [] (by rw [← hcs]; exact hword)
    simpa using this
  have htw1 : (c0 :: (cs ++ '=' :: t.data)).takeWhile isWordChar = c0 :: cs := by
    have : (c0 :: cs) ++ '=' :: t.data = c0 :: (cs ++ '=' :: t.data) := by simp
    rw [← this, takeWhile_append_all isWordChar (c0 :: cs) ('=' :: t.data)
      (by rw [← hcs]; exact hword)]
    simp [List.takeWhile_cons, isWordChar]
  have hcl1 : classifyToken ("-" ++ w ++ "=" ++ t) = .short w := by
    rw [classify_data_short _ c0 _ hdata1 hc0 (by rw [htw1]; simp), htw1, ← hcs]
  have hcl2 : classifyToken ("-" ++ w) = .short w := by
    rw [classify_data_short _ c0 _ hdata2 hc0 (by rw [htw2]; simp), htw2, ← hcs]
  cases rest with
  | nil => simp only [parseArgsLoop, hcl1, hcl2]
  | cons b rest => simp only [parseArgsLoop, hcl1, hcl2]

/-- C10, witness: the discard rule applied at the concrete token `-x=y`. -/
theorem c10_short_discard_witness :
    parseArgsLoop [] ["-x=y"] 1 [] [] none = parseArgsLoop [] ["-x"] 1 [] [] none := by
  exact c10_short_discard.1 "x" "y" [] [] 1 [] [] none (by decide) (by decide)

/-! ## Lemmas about the constructor's positional validation, for C7 -/

theorem validatePositionals_started_error (cmdName : String) (l : List PositionalArgData)
    (h : ∃ r ∈ l, r.optional = false) :
    validatePositionals cmdName true l =
      .error (invalidConfig (requiredAfterOptionalMsg cmdName)) := by
  induction l with
  | nil => obtain ⟨r, hr, _⟩ := h; exact absurd hr (List.not_mem_nil r)
  | cons a rest ih =>
    by_cases ha : a.optional
    · have : ∃ r ∈ rest, r.optional = false := by
        obtain ⟨r, hr, hro⟩ := h
        rcases List.mem_cons.mp hr with he | hm
        · rw [he] at hro; rw [hro] at ha; exact absurd ha (by decide)
        · exact ⟨r, hm, hro⟩
      simpa [validatePositionals, ha, requiredAfterOptionalMsg] using ih this
    · simp only [Bool.not_eq_true] at ha
      simp [validatePositionals, ha, requiredAfterOptionalMsg]

theorem validatePositionals_split_error (cmdName : String) (l1 : List PositionalArgData)
    (p : PositionalArgData) (l2 : List PositionalArgData)
    (hp : p.optional = true) (h : ∃ r ∈ l2, r.optional = false) :
    validatePositionals cmdName false (l1 ++ p :: l2) =
      .error (invalidConfig (requiredAfterOptionalMsg cmdName)) := by
  induction l1 with
  | nil =>
    simp only [List.nil_append, validatePositionals, Bool.false_and, Bool.false_or,
      if_neg (by simp : ¬(false && !p.optional) = true), hp]
    exact validatePositionals_started_error cmdName l2 h
  | cons a l1 ih =>
    by_cases ha : a.optional
    · have hmem : ∃ r ∈ l1 ++ p :: l2, r.optional = false := by
        obtain ⟨r, hr, hro⟩ := h
        exact ⟨r, by simp [hr], hro⟩
      simp only [List.cons_append, validatePositionals, Bool.false_and, ha, Bool.false_or]
      simpa using validatePositionals_started_error cmdName (l1 ++ p :: l2) hmem
    · simp only [Bool.not_eq_true] at ha
      simp only [List.cons_append, validatePositionals, Bool.false_and, ha, Bool.false_or]
      simpa using ih

/-- C7: registering a command whose normalized positional-argument list
places a required argument after an optional one raises a configuration
error synchronously in the `Subcommand` constructor — i.e. at schema-build
(registration) time, before any dispatch can occur — and this failure is a
plain `Error` from `invalidConfig` (`AppFailure.configError`), never the
user-facing `ApplicationError` that the dispatcher catches and prints.  The
second and third conjuncts evaluate the concrete example
`[{optional: true}, {required}]`. -/
theorem c7_required_after_optional :
    (∀ (name : String) (description : Option String) (raw : RawArgOptions) (dflt : Bool)
        (l1 l2 l3 : List PositionalArgData) (p q : PositionalArgData),
      raw.positionalArgs.enum.mapM (fun pr => normalizePositional name pr.1 pr.2) =
        .ok (l1 ++ p :: l2 ++ q :: l3) →
      p.optional = true → q.optional = false →
      mkSubcommand name description raw dflt =
        .error (invalidConfig (requiredAfterOptionalMsg name))) ∧
    mkSubcommand "cmd1" (some "test command") c7raw false =
      .error (invalidConfig (requiredAfterOptionalMsg "cmd1")) ∧
    (∀ (m : String) (k : Nat),
      mkSubcommand "cmd1" (some "test command") c7raw false ≠
        .error (.applicationError m k)) := by
  refine ⟨fun name description raw dflt l1 l2 l3 p q hnorm hp hq => ?_, rfl, ?_⟩
  · have hv := validatePositionals_split_error name l1 p (l2 ++ q :: l3) hp ⟨q, by simp, hq⟩
    unfold mkSubcommand
    rw [hnorm]
    simp only [List.cons_append, List.append_assoc] at hv ⊢
    simp only [hv]
  · intro m k h
    rw [show mkSubcommand "cmd1" (some "test command") c7raw false =
      .error (invalidConfig (requiredAfterOptionalMsg "cmd1")) from rfl] at h
    simp [invalidConfig] at h

/-- C7, witness: the general rule applied to the concrete normalized schema
of `c7raw` (optional `arg1` before required `arg2`). -/
theorem c7_required_after_optional_witness :
    mkSubcommand "cmd2" none c7raw true =
      .error (invalidConfig (requiredAfterOptionalMsg "cmd2")) := by
  exact c7_required_after_optional.1 "cmd2" none c7raw true [] [] []
    { name := "arg1", description := none, optional := true, default := none }
    { name := "arg2", description := none, optional := false, default := none }
    rfl rfl rfl

/-! ## Lemmas about the named pass, for C8 -/

theorem namedPass_get_not_mem (declared : List (String × NamedArgData)) (usage : String)
    (named out : List (String × JSVal)) (name : String)
    (h : ∀ p ∈ declared, p.1 ≠ name)
    (hp : namedPass declared usage named = .ok out) :
    recGet? out name = recGet? named name := by
  induction declared generalizing named with
  | nil =>
    simp only [namedPass] at hp
    injection hp with h2
    rw [h2]
  | cons ko rest ih =>
    obtain ⟨k, o⟩ := ko
    have hk : k ≠ name := h (k, o) (by simp)
    cases hr : resolveNamedArgValue k o (recGet? named k) usage with
    | error e => simp [namedPass, hr] at hp
    | ok v =>
      cases v with
      | none =>
        simp only [namedPass, hr] at hp
        exact ih named (fun p hmem => h p (List.mem_cons_of_mem _ hmem)) hp
      | some jv =>
        simp only [namedPass, hr] at hp
        rw [ih (recSet named k jv) (fun p hmem => h p (List.mem_cons_of_mem _ hmem)) hp,
          recGet?_recSet_ne named k name jv (fun hh => hk hh.symm)]

theorem namedPass_get (declared : List (String × NamedArgData)) (usage : String)
    (named out : List (String × JSVal)) (name : String) (opt : NamedArgData)
    (hnd : (declared.map Prod.fst).Nodup)
    (hget : recGet? declared name = some opt)
    (hp : namedPass declared usage named = .ok out) :
    ∃ v, resolveNamedArgValue name opt (recGet? named name) usage = .ok v ∧
      recGet? out name = (match v with
        | some jv => some jv
        | none => recGet? named name) := by
  induction declared generalizing named with
  | nil => simp [recGet?] at hget
  | cons ko rest ih =>
    obtain ⟨k, o⟩ := ko
    rw [recGet?_cons] at hget
    rw [List.map_cons, List.nodup_cons] at hnd
    by_cases hk : k = name
    · rw [if_pos hk] at hget
      injection hget with hoo
      subst hk
      have hnotmem : ∀ p ∈ rest, p.1 ≠ k := by
        intro p hmem he
        have h1 : p.1 ∈ List.map Prod.fst rest := List.mem_map_of_mem Prod.fst hmem
        rw [he] at h1
        exact hnd.1 h1
      rw [← hoo]
      cases hr : resolveNamedArgValue k o (recGet? named k) usage with
      | error e => simp [namedPass, hr] at hp
      | ok v =>
        refine ⟨v, rfl, ?_⟩
        cases v with
        | none =>
          simp only [namedPass, hr] at hp
          exact namedPass_get_not_mem rest usage named out k hnotmem hp
        | some jv =>
          simp only [namedPass, hr] at hp
          rw [namedPass_get_not_mem rest usage (recSet named k jv) out k hnotmem hp,
            recGet?_recSet_self]
    · rw [if_neg hk] at hget
      cases hr : resolveNamedArgValue k o (recGet? named k) usage with
      | error e => simp [namedPass, hr] at hp
      | ok v =>
        cases v with
        | none =>
          simp only [namedPass, hr] at hp
          exact ih named hnd.2 hget hp
        | some jv =>
          simp only [namedPass, hr] at hp
          have hne : name ≠ k := fun hh => hk hh.symm
          have := ih (recSet named k jv) hnd.2 hget hp
          rwa [recGet?_recSet_ne named k name jv hne] at this

/-- C8: on every run that reaches the handler, every named argument declared
valueless reaches the handler as a boolean — never a string — and that
boolean is `true` iff the value stored for it after tokenization, alias
folding and default-filling (`fillNamedArg`) is exactly `null` (the flag was
present without a value); it is `false` otherwise, including for
`--flag=somevalue`. -/
theorem c8_valueless_boolean (sc : Subcommand) (args : List String)
    (nodeArgs : String × String) (app : Application) (opts : HandlerOpts)
    (name : String) (opt : NamedArgData)
    (hrun : subcommandRun sc args nodeArgs app = .ok opts)
    (hdecl : recGet? sc.argOptions.namedArgs name = some opt)
    (hvl : opt.valueless = true)
    (hnd : (sc.argOptions.namedArgs.map Prod.fst).Nodup) :
    ∃ b : Bool, recGet? opts.namedArgs name = some (JSVal.bool b) ∧
      (b = true ↔
        fillNamedArg name opt
          (recGet? (aliasFold sc.argOptions.aliases
            (parseArgs args (valuelessOf sc)).namedArgs) name)
          (usageMessage app sc) = .ok (some JSVal.null)) := by
  simp only [subcommandRun] at hrun
  split at hrun
  · exact absurd hrun (by simp)
  · split at hrun
    · exact absurd hrun (by simp)
    · split at hrun
      · exact absurd hrun (by simp)
      · next named2 hnp =>
        injection hrun with hopts
        subst hopts
        obtain ⟨v, hv, hout⟩ := namedPass_get sc.argOptions.namedArgs
          (usageMessage app sc)
          (aliasFold sc.argOptions.aliases (parseArgs args (valuelessOf sc)).namedArgs)
          named2 name opt hnd hdecl hnp
        cases hf : fillNamedArg name opt
            (recGet? (aliasFold sc.argOptions.aliases
              (parseArgs args (valuelessOf sc)).namedArgs) name)
            (usageMessage app sc) with
        | error e => simp [resolveNamedArgValue, hf] at hv
        | ok v1 =>
          simp only [resolveNamedArgValue, hf, hvl, if_pos] at hv
          injection hv with hv2
          refine ⟨decide (v1 = some JSVal.null), ?_, ?_⟩
          · rw [hout, ← hv2]
          · rw [decide_eq_true_eq]
            constructor
            · intro h1
              rw [h1]
            · intro h1
              simpa using h1

/-- C8, witness: a valueless optional `verbose` flag passed as
`--verbose=x` reaches the handler as the boolean `false` (the stored value
after default-filling is the string `"x"`, not `null`). -/
theorem c8_valueless_boolean_witness :
    recGet? c8opts.namedArgs "verbose" = some (JSVal.bool false) := by
  obtain ⟨b, h1, h2⟩ := c8_valueless_boolean c8cmd ["--verbose=x"] ("node", "app.js")
    c8App c8opts "verbose"
    { description := some "No description provided", optional := true,
      default := none, valueless := true, aliases := [] }
    rfl rfl rfl (by decide)
  cases b with
  | false => exact h1
  | true => exact absurd (h2.mp rfl) (by decide)

/-! ## Lemmas for C9 -/

theorem mNEVCore_head (c : Char) (cs : List Char) (h : c ≠ '-') :
    mNEVCore (c :: cs) = none := by
  unfold mNEVCore
  split
  · next heq =>
    rw [List.cons.injEq] at heq
    exact absurd heq.1 h
  · rfl

theorem matchNameCore_head (c : Char) (cs : List Char) (h : c ≠ '-') :
    matchNameCore (c :: cs) = none := by
  unfold matchNameCore
  split
  · next heq =>
    rw [List.cons.injEq] at heq
    exact absurd heq.1 h
  · rfl

theorem matchShortCore_head (c : Char) (cs : List Char) (h : c ≠ '-') :
    matchShortCore (c :: cs) = none := by
  unfold matchShortCore
  split
  · next heq =>
    rw [List.cons.injEq] at heq
    exact absurd heq.1 h
  · rfl

/-- A token that does not start with a hyphen always lands in the positional
branch. -/
theorem classify_positional_of_no_dash (t : String) (h : strStartsWithDash t = false) :
    classifyToken t = .positional := by
  cases hd : t.data with
  | nil =>
    have hsep : t ≠ "--" := by
      intro he
      rw [he] at hd
      exact absurd hd (by decide)
    unfold classifyToken matchNameEqualsValue matchName matchShort
    rw [if_neg hsep, hd]
    rfl
  | cons c cs =>
    have hc : c ≠ '-' := by
      intro he
      have h2 : strStartsWithDash t = true := by
        unfold strStartsWithDash
        rw [hd, he]
        rfl
      rw [h2] at h
      exact absurd h (by decide)
    have hsep : t ≠ "--" := by
      intro he
      rw [he, show ("--" : String).data = ['-', '-'] from rfl] at hd
      rw [List.cons.injEq] at hd
      exact hc hd.1.symm
    unfold classifyToken matchNameEqualsValue matchName matchShort
    rw [if_neg hsep, hd, mNEVCore_head c cs hc, matchNameCore_head c cs hc,
      matchShortCore_head c cs hc]
    rfl

theorem parseArgsLoop_all_positional (vl : List String) (ts : List String)
    (h : ∀ t ∈ ts, strStartsWithDash t = false) :
    ∀ (i : Nat) (named : List (String × JSVal)) (pos : List String) (fpa : Option String),
      1 ≤ i →
      parseArgsLoop vl ts i named pos fpa =
        ⟨named, pos ++ ts, if i = 1 ∧ ts ≠ [] then ts.head? else fpa⟩ := by
  induction ts with
  | nil =>
    intro i named pos fpa hi
    simp [parseArgsLoop]
  | cons a tail ih =>
    intro i named pos fpa hi
    have ha : classifyToken a = .positional := classify_positional_of_no_dash a (h a (by simp))
    cases tail with
    | nil =>
      simp only [parseArgsLoop, ha]
      simp
    | cons b tail2 =>
      simp only [parseArgsLoop, ha]
      rw [ih (fun t ht => h t (by simp [ht])) (i+1) named (pos ++ [a])
        (if i = 1 then some a else fpa) (by omega)]
      have hi1 : ¬ (i + 1 = 1) := by omega
      by_cases h1 : i = 1 <;> simp [h1, hi1, List.append_assoc]

/-- C9: the tokenizer is a total function of the token sequence — its loop
consumes one token per iteration, bounded only by the input length, never by
an artificial iteration cap, and it has no failure path (its Lean embedding
returns a plain `ParseResult`, matching the absence of any `fail`/throw in
`parseArgs`).  Quantified over sequences of arbitrary length: every token
that does not start with a hyphen is retained as a positional, so for any
`n`, a sequence of `n` plain tokens yields `n` positionals — in particular
sequences longer than 1000 tokens succeed, with no "too many arguments"
failure. -/
theorem c9_no_token_cap (ts vl : List String)
    (h : ∀ t ∈ ts, strStartsWithDash t = false) :
    parseArgs ts vl = ⟨[], ts, ts.head?⟩ := by
  rw [parseArgs, parseArgsLoop_all_positional vl ts h 1 [] [] none (le_refl 1)]
  cases ts with
  | nil => rfl
  | cons a tail => rfl

/-- C9, witness: a 1001-token input is tokenized in full; all 1001 tokens
are retained. -/
theorem c9_no_token_cap_witness :
    (parseArgs (List.replicate 1001 "tok") []).positionalArgs.length = 1001 := by
  rw [c9_no_token_cap (List.replicate 1001 "tok") []
    (by
      intro t ht
      rw [List.eq_of_mem_replicate ht]
      decide)]
  show (List.replicate 1001 "tok").length = 1001
  rw [List.length_replicate]
